import Mathlib

/-!
Verification of the s2 `Polygon` core (polygon.go): the nested-loop
hierarchy (Parent, LastDescendant), the dual-mode edge-chain index
(Edge, ChainPosition, ChainEdge), the shape adapter (NumChains,
ContainsOrigin) and the lossless serializer (Encode).

The Go code is embedded shallowly: slices become lists, Go `int` values
that stay non-negative on every path the theorems touch become `Nat`
(loop depths, which the source compares with `<=` and `>`, stay `Int`
to match Go `int`), a Go panic becomes `Option.none`, and the external
collaborators (`Loop`, `Rect`, the binary encoder) that live outside
the analysed file are modelled from the specification at their
documented boundary.
-/

set_option autoImplicit false

namespace S2

/-- Modelled from the spec: the external latitude/longitude rectangle
region collaborator (type `Rect`, not part of the analysed file). The
spec requires only: empty and full sentinel constructors, containment,
and a binary encoder. Coordinates are abstracted to integers; an
interval with `lo > hi` is empty. -/
structure Rect where
  latLo : Int
  latHi : Int
  lngLo : Int
  lngHi : Int
deriving DecidableEq, Inhabited

/-- Modelled from the spec: membership of a (lat, lng) point in a
rectangle: both coordinates lie in the respective closed interval. -/
def Rect.containsPoint (r : Rect) (lat lng : Int) : Bool :=
  r.latLo ≤ lat && lat ≤ r.latHi && r.lngLo ≤ lng && lng ≤ r.lngHi

/-- Modelled from the spec: the empty-rectangle sentinel (`EmptyRect()`),
containing no point (both intervals have `lo > hi`). -/
def EmptyRect : Rect := { latLo := 1, latHi := -1, lngLo := 1, lngHi := -1 }

/-- Modelled from the spec: the full-rectangle sentinel (`FullRect()`),
covering the whole (abstracted) sphere. -/
def FullRect : Rect := { latLo := -90, latHi := 90, lngLo := -180, lngHi := 180 }

/-- Modelled from the spec: the external `Loop` collaborator. The spec
requires: a vertex count, cyclic vertex access by index, a depth field
set by the polygon, an "is full" query, an origin-containment flag and
a bounding rectangle. Vertices are abstracted to opaque identifiers
(`Nat`); the geometry of a vertex never matters to these claims. -/
structure Loop where
  vertices : List Nat
  depth : Int
  isFull : Bool
  originInside : Bool
  rectBound : Rect
deriving DecidableEq, Inhabited

/-- Modelled from the spec: cyclic vertex access (`Loop.Vertex`), i.e.
index arithmetic wraps modulo the vertex count. -/
def Loop.Vertex (l : Loop) (i : Nat) : Nat :=
  l.vertices.getD (i % l.vertices.length) 0

/-- Modelled from the spec: the "is full" query of a loop. -/
def Loop.IsFull (l : Loop) : Bool := l.isFull

/-- Modelled from the spec: the loop's own origin-containment flag. -/
def Loop.ContainsOrigin (l : Loop) : Bool := l.originInside

/-- Modelled from the spec: `FullLoop()`, the distinguished single-vertex
loop covering the entire sphere, whose "is full" flag is true. -/
def FullLoop : Loop :=
  { vertices := [0], depth := 0, isFull := true, originInside := true
    rectBound := FullRect }

/-- Modelled from the spec: one field of the serialized byte stream.
The byte-level encodings of the external `Loop` and `Rect`
collaborators are opaque blocks; the claims are about the kind, value
and order of the written fields, which the tokens capture exactly. -/
inductive EncToken where
  | int8 : Int → EncToken
  | boolv : Bool → EncToken
  | uint32 : Nat → EncToken
  | loopBlock : Loop → EncToken
  | rectBlock : Rect → EncToken
deriving DecidableEq

/-- Modelled from the spec: the binary encoder collaborator: the fields
written so far to the output writer, and the recoverable error slot. -/
structure Encoder where
  w : List EncToken
  err : Option String
deriving DecidableEq

/-- Modelled from the spec: write a signed 8-bit field. -/
def Encoder.writeInt8 (e : Encoder) (v : Int) : Encoder :=
  { e with w := e.w ++ [EncToken.int8 v] }

/-- Modelled from the spec: write a boolean field. -/
def Encoder.writeBool (e : Encoder) (b : Bool) : Encoder :=
  { e with w := e.w ++ [EncToken.boolv b] }

/-- Modelled from the spec: write a fixed-width unsigned 32-bit field. -/
def Encoder.writeUint32 (e : Encoder) (n : Nat) : Encoder :=
  { e with w := e.w ++ [EncToken.uint32 n] }

/-- Modelled from the spec: the Go conversion `uint32(n)` (reduction
modulo 2^32) applied to a non-negative length. -/
def uint32Of (n : Nat) : Nat := n % 4294967296

/-- Modelled from the spec: the fixed version constant of the lossless
format (`encodingVersion`); its concrete value is immaterial here. -/
def encodingVersion : Int := 1

/-- Modelled from the spec: a loop's own binary encoding, one opaque
block appended to the stream (`l.encode(e)`). -/
def Loop.encode (l : Loop) (e : Encoder) : Encoder :=
  { e with w := e.w ++ [EncToken.loopBlock l] }

/-- Modelled from the spec: a rectangle's binary encoding, one opaque
block appended to the stream (`p.bound.encode(e)`). -/
def Rect.encode (r : Rect) (e : Encoder) : Encoder :=
  { e with w := e.w ++ [EncToken.rectBlock r] }

/-- The `Polygon` struct of polygon.go. The `index ShapeIndex` field (a
lazily attached spatial index that no analysed function reads) is
omitted; every other field is carried. `cumulativeEdges` is the
optional table of per-loop cumulative edge counts; the empty list
stands for the Go nil slice. -/
structure Polygon where
  loops : List Loop
  hasHoles : Bool
  numVertices : Nat
  numEdges : Nat
  bound : Rect
  subregionBound : Rect
  cumulativeEdges : List Nat
deriving DecidableEq, Inhabited

/-- In-range list access to a loop sequence. Go indexing panics out of
range; every use below is in range, and the default value is never
reachable in the proved statements. -/
def loopAt (ls : List Loop) (k : Nat) : Loop := ls.getD k default

/-- `NumLoops` of polygon.go. -/
def Polygon.NumLoops (p : Polygon) : Nat := p.loops.length

/-- `IsEmpty` of polygon.go: no loops at all. -/
def Polygon.IsEmpty (p : Polygon) : Bool := p.loops.length == 0

/-- `IsFull` of polygon.go: a single loop whose "is full" flag is set. -/
def Polygon.IsFull (p : Polygon) : Bool :=
  p.loops.length == 1 && (loopAt p.loops 0).IsFull

/-- `Loop` accessor of polygon.go (`p.loops[k]`). -/
def Polygon.Loop (p : Polygon) (k : Nat) : Loop := loopAt p.loops k

/-- `NumEdges` of polygon.go. -/
def Polygon.NumEdges (p : Polygon) : Nat := p.numEdges

/-- `NumChains` of polygon.go: 0 for the full polygon, else the loop
count. -/
def Polygon.NumChains (p : Polygon) : Nat :=
  if p.IsFull then 0 else p.NumLoops

/-- `ContainsOrigin` of polygon.go: fold of boolean inequality (XOR) of
the per-loop origin flags over the loop sequence. -/
def Polygon.ContainsOrigin (p : Polygon) : Bool :=
  p.loops.foldl (fun acc l => acc != l.ContainsOrigin) false

/-- The backward scan of `Parent` in polygon.go: starting at index
`k - 1` (the argument `n` is the number of candidate indices left, so
`n = k` examines `k - 1` first), Go continues while
`k >= 0 && p.loops[k].depth <= depth`, and returns the final `k`
(possibly -1). -/
def parentScan (ls : List Loop) (d : Int) : Nat → Int
  | 0 => -1
  | n + 1 => if (loopAt ls n).depth ≤ d then parentScan ls d n else (n : Int)

/-- `Parent` of polygon.go: depth-0 loops report not-found; otherwise
the backward scan result is returned with ok = true. -/
def Polygon.Parent (p : Polygon) (k : Nat) : Int × Bool :=
  let d := (loopAt p.loops k).depth
  if d = 0 then (-1, false)
  else (parentScan p.loops d k, true)

/-- The forward scan of `LastDescendant` in polygon.go: Go continues
while `k < len(p.loops) && p.loops[k].depth > depth` and returns the
final `k`. -/
def lastDescScan (ls : List Loop) (d : Int) (k : Nat) : Nat :=
  if h : k < ls.length ∧ d < (loopAt ls k).depth then lastDescScan ls d (k + 1)
  else k
termination_by ls.length - k
decreasing_by
  simp_wf
  omega

/-- `LastDescendant` of polygon.go: for negative `k` the last loop
index; otherwise one less than the forward scan started at `k + 1`. -/
def Polygon.LastDescendant (p : Polygon) (k : Int) : Int :=
  if k < 0 then (p.loops.length : Int) - 1
  else
    let d := (loopAt p.loops k.toNat).depth
    (lastDescScan p.loops d (k.toNat + 1) : Int) - 1

/-- The indexed-mode resolution loop shared by `Edge` and
`ChainPosition` in polygon.go: scan the cumulative table, breaking at
the first `i` with `i+1 >= len(cum) || e < cum[i+1]`, and return
`(i, e - cum[i])`. `i` is threaded as an accumulator. -/
def cumResolve : List Nat → Nat → Nat → Nat × Nat
  | [], e, i => (i, e)
  | [c], e, i => (i, e - c)
  | c :: c2 :: cs, e, i =>
      if e < c2 then (i, e - c) else cumResolve (c2 :: cs) e (i + 1)

/-- The linear-mode resolution loop shared by `Edge` and
`ChainPosition` in polygon.go: `for i = 0; e >= len(loop(i).vertices);
i++ { e -= len(loop(i).vertices) }`. Running past the last loop is a
Go panic, hence `none`. -/
def linResolve : List Loop → Nat → Nat → Option (Nat × Nat)
  | [], _, _ => none
  | l :: ls, e, i =>
      if e < l.vertices.length then some (i, e)
      else linResolve ls (e - l.vertices.length) (i + 1)

/-- `Edge` of polygon.go: resolve the global edge index by the indexed
mode when the cumulative table is populated, else by the linear mode,
then return the vertex pair of the local edge. -/
def Polygon.Edge (p : Polygon) (e : Nat) : Option (Nat × Nat) :=
  (if 0 < p.cumulativeEdges.length then some (cumResolve p.cumulativeEdges e 0)
   else linResolve p.loops e 0).map
    (fun ij => ((loopAt p.loops ij.1).Vertex ij.2,
                (loopAt p.loops ij.1).Vertex (ij.2 + 1)))

/-- `ChainEdge` of polygon.go: the j-th edge of the i-th chain, as the
vertex pair (Vertex j, Vertex (j+1)) of loop i. -/
def Polygon.ChainEdge (p : Polygon) (i j : Nat) : Nat × Nat :=
  ((loopAt p.loops i).Vertex j, (loopAt p.loops i).Vertex (j + 1))

/-- `ChainPosition` of polygon.go: identical resolution code to `Edge`,
returning the (chain index, local edge index) pair itself. -/
def Polygon.ChainPosition (p : Polygon) (e : Nat) : Option (Nat × Nat) :=
  if 0 < p.cumulativeEdges.length then some (cumResolve p.cumulativeEdges e 0)
  else linResolve p.loops e 0

/-- The `encodeLossless` method of polygon.go: version, legacy true
flag, hasHoles flag, uint32 loop count, each loop's encoding in order,
then the bound's encoding. -/
def Polygon.encodeLossless (p : Polygon) (e : Encoder) : Encoder :=
  let e1 := e.writeInt8 encodingVersion
  let e2 := e1.writeBool true
  let e3 := e2.writeBool p.hasHoles
  let e4 := e3.writeUint32 (uint32Of p.loops.length)
  let e5 := p.loops.foldl (fun acc l => l.encode acc) e4
  p.bound.encode e5

/-- The lowercase `encode` method of polygon.go: a 0-vertex polygon
sets the recoverable error and returns; otherwise lossless encoding. -/
def Polygon.encode (p : Polygon) (e : Encoder) : Encoder :=
  if p.numVertices = 0 then
    { e with err := some "compressed encoding not yet implemented" }
  else p.encodeLossless e

/-- `Encode` of polygon.go: run `encode` on a fresh encoder over the
given writer and surface the error slot; the first component is the
stream written to the writer. -/
def Polygon.Encode (p : Polygon) : List EncToken × Option String :=
  let e := p.encode { w := [], err := none }
  (e.w, e.err)

/-- `FullPolygon` of polygon.go: a single full loop, full bounds, and
the remaining fields at their Go zero values. -/
def FullPolygon : Polygon :=
  { loops := [FullLoop]
    hasHoles := false
    numVertices := FullLoop.vertices.length
    numEdges := 0
    bound := FullRect
    subregionBound := FullRect
    cumulativeEdges := [] }

/-- The Go zero value of `Polygon`, documented to be the empty
polygon (no loops; every field at its zero value). -/
def emptyPolygon : Polygon :=
  { loops := []
    hasHoles := false
    numVertices := 0
    numEdges := 0
    bound := { latLo := 0, latHi := 0, lngLo := 0, lngHi := 0 }
    subregionBound := { latLo := 0, latHi := 0, lngLo := 0, lngHi := 0 }
    cumulativeEdges := [] }

/-- The `maxLinearSearchLoops` constant of polygon.go. -/
def maxLinearSearchLoops : Nat := 12

/-- `PolygonFromLoops` of polygon.go. Both panics (the explicit
length > 1 panic, and the out-of-range access `loops[0]` on an empty
slice) are `none`. Go's nil-versus-allocated-empty distinction for
`cumulativeEdges` is carried by the loop-count test, exactly as the
source allocates the slice only when the count exceeds the threshold;
the per-loop body appends the running edge total before adding the
loop's own vertex count, as in the source. -/
def polygonFromLoops (loops : List Loop) : Option Polygon :=
  if loops.length > 1 then none
  else
    match loops with
    | [] => none
    | l0 :: _ =>
      let p : Polygon :=
        { loops := loops
          numVertices := l0.vertices.length
          bound := l0.rectBound
          subregionBound := EmptyRect
          hasHoles := false
          numEdges := 0
          cumulativeEdges := [] }
      let useCum : Bool := decide (loops.length > maxLinearSearchLoops)
      some (loops.foldl
        (fun q l =>
          { q with
            cumulativeEdges :=
              if useCum then q.cumulativeEdges ++ [q.numEdges]
              else q.cumulativeEdges
            numEdges := q.numEdges + l.vertices.length })
        p)

/-- The cumulative-edge table the constructor builds when populated:
element i is the total edge count of the loops before loop i,
accumulated from `acc`. -/
def cumFrom (acc : Nat) : List Loop → List Nat
  | [] => []
  | l :: ls => acc :: cumFrom (acc + l.vertices.length) ls

/-- Total edge count of a loop sequence (each loop contributes its
vertex count, a closed loop having as many edges as vertices). -/
def totalEdges : List Loop → Nat
  | [] => 0
  | l :: ls => l.vertices.length + totalEdges ls

/-- A plain test loop: given vertices and depth, not full, origin flag
clear, empty bound. -/
def mkTestLoop (vs : List Nat) (d : Int) : Loop :=
  { vertices := vs, depth := d, isFull := false, originInside := false
    rectBound := EmptyRect }

end S2

open S2

theorem foldl_xor_originFlags (ls : List Loop) : ∀ b : Bool,
    ls.foldl (fun acc l => acc != l.ContainsOrigin) b
      = (b != (ls.countP (fun l => l.originInside) % 2 == 1)) := by
  induction ls with
  | nil => intro b; cases b <;> rfl
  | cons l ls ih =>
      intro b
      rw [List.foldl_cons, ih, List.countP_cons]
      rcases Nat.mod_two_eq_zero_or_one (ls.countP (fun l => l.originInside))
        with hc | hc
      · cases hl : l.ContainsOrigin <;>
          simp only [Loop.ContainsOrigin] at hl <;>
          cases b <;>
          simp [hl, hc, Nat.add_mod]
      · cases hl : l.ContainsOrigin <;>
          simp only [Loop.ContainsOrigin] at hl <;>
          cases b <;>
          simp [hl, hc, Nat.add_mod]

/-- C8: `ContainsOrigin` returns the parity (XOR) of the per-loop
origin-containment flags: it is true exactly when an odd number of the
polygon's loops contain the origin, and in particular it is false for
the empty polygon. -/
theorem containsOrigin_parity :
    (∀ p : Polygon,
      p.ContainsOrigin = (p.loops.countP (fun l => l.originInside) % 2 == 1)) ∧
    emptyPolygon.ContainsOrigin = false := by
  constructor
  · intro p
    rw [Polygon.ContainsOrigin, foldl_xor_originFlags]
    cases h : (p.loops.countP (fun l => l.originInside) % 2 == 1) <;> simp [h]
  · rfl

/-- C9: `NumChains` is 0 for the full polygon and 0 for the empty
polygon, and equals `NumLoops` for every polygon that is not full;
`FullPolygon` has one loop and is full, and the empty polygon has no
loops and is empty. -/
theorem numChains_full_empty :
    (∀ p : Polygon, p.IsFull = true → p.NumChains = 0) ∧
    (∀ p : Polygon, p.IsEmpty = true → p.NumChains = 0) ∧
    (∀ p : Polygon, p.IsFull = false → p.NumChains = p.NumLoops) ∧
    FullPolygon.NumLoops = 1 ∧ FullPolygon.IsFull = true ∧
    emptyPolygon.NumLoops = 0 ∧ emptyPolygon.IsEmpty = true := by
  refine ⟨?_, ?_, ?_, rfl, rfl, rfl, rfl⟩
  · intro p h
    simp [Polygon.NumChains, h]
  · intro p h
    simp only [Polygon.IsEmpty, beq_iff_eq] at h
    have hf : p.IsFull = false := by
      simp [Polygon.IsFull, h]
    simp [Polygon.NumChains, hf, Polygon.NumLoops, h]
  · intro p h
    simp [Polygon.NumChains, h]

theorem numChains_full_empty_witness :
    FullPolygon.NumChains = 0 ∧ emptyPolygon.NumChains = 0 :=
  ⟨numChains_full_empty.1 FullPolygon (by decide),
   numChains_full_empty.2.1 emptyPolygon (by decide)⟩

/-- C10: `PolygonFromLoops` requires a non-empty slice: on the empty
slice it aborts (accessing element 0 out of range) instead of
returning the empty polygon, and every successful construction yields
a polygon that is not the empty polygon. -/
theorem polygonFromLoops_needs_loops :
    polygonFromLoops [] = none ∧
    ∀ (ls : List Loop) (p : Polygon),
      polygonFromLoops ls = some p → p.IsEmpty = false := by
  refine ⟨rfl, ?_⟩
  intro ls p h
  rw [polygonFromLoops.eq_def] at h
  split at h
  · exact absurd h (by simp)
  · rename_i hlen
    cases ls with
    | nil => exact absurd h (by simp)
    | cons l0 rest =>
      cases rest with
      | nil =>
        rw [Option.some_inj] at h
        rw [← h]
        rfl
      | cons l1 r2 =>
        simp only [List.length_cons, gt_iff_lt, not_lt] at hlen
        omega

theorem polygonFromLoops_needs_loops_witness :
    ∃ p : Polygon, polygonFromLoops [mkTestLoop [1, 2, 3] 0] = some p ∧
      p.IsEmpty = false :=
  ⟨_, rfl, polygonFromLoops_needs_loops.2 [mkTestLoop [1, 2, 3] 0] _ rfl⟩

/-- C6: encoding a polygon with zero vertices reports a recoverable
error and writes nothing to the output stream. -/
theorem encode_empty_reports_error (p : Polygon) (h : p.numVertices = 0) :
    (p.Encode).2.isSome = true ∧ (p.Encode).1 = [] := by
  constructor <;> simp [Polygon.Encode, Polygon.encode, h]

theorem encode_empty_reports_error_witness :
    (emptyPolygon.Encode).2.isSome = true ∧ (emptyPolygon.Encode).1 = [] :=
  encode_empty_reports_error emptyPolygon rfl

theorem foldl_loop_encode (ls : List Loop) : ∀ e : Encoder,
    ls.foldl (fun acc l => l.encode acc) e
      = { w := e.w ++ ls.map EncToken.loopBlock, err := e.err } := by
  induction ls with
  | nil => intro e; simp
  | cons l ls ih =>
      intro e
      rw [List.foldl_cons, ih]
      simp [Loop.encode]

/-- C7: for a polygon with at least one vertex, `Encode` writes, in
this exact order with nothing in between: the version constant, the
legacy flag true, the hasHoles flag, the loop count as an unsigned
32-bit value, each loop's encoding in loop-sequence order, and finally
the bound's encoding. -/
theorem encode_lossless_stream (p : Polygon) (h : p.numVertices ≠ 0) :
    (p.Encode).1 =
      EncToken.int8 encodingVersion :: EncToken.boolv true ::
      EncToken.boolv p.hasHoles ::
      EncToken.uint32 (uint32Of p.loops.length) ::
      (p.loops.map EncToken.loopBlock ++ [EncToken.rectBlock p.bound]) := by
  simp [Polygon.Encode, Polygon.encode, h, Polygon.encodeLossless,
        Encoder.writeInt8, Encoder.writeBool, Encoder.writeUint32,
        foldl_loop_encode, Rect.encode]

theorem encode_lossless_stream_witness :
    (FullPolygon.Encode).1 =
      EncToken.int8 encodingVersion :: EncToken.boolv true ::
      EncToken.boolv FullPolygon.hasHoles ::
      EncToken.uint32 (uint32Of FullPolygon.loops.length) ::
      (FullPolygon.loops.map EncToken.loopBlock ++
        [EncToken.rectBlock FullPolygon.bound]) :=
  encode_lossless_stream FullPolygon (by decide)

def c2poly : Polygon :=
  { loops := [mkTestLoop [1, 2, 3] 0, mkTestLoop [4, 5, 6] 1]
    hasHoles := true
    numVertices := 6
    numEdges := 6
    bound := EmptyRect
    subregionBound := EmptyRect
    cumulativeEdges := [] }

/-- C2 evidence: on a polygon whose loops have the valid preorder
depths 0 and 1 (a shell with one hole), `Parent 1` returns the pair
(-1, true): it reports ok while handing back index -1, instead of the
structural parent at index 0 with depth 0 = depth(1) - 1; the backward
scan keeps going while the scanned depth is less than or equal to the
starting depth, so it walks straight past the parent. -/
theorem parent_misses_parent_on_depths01 :
    (loopAt c2poly.loops 0).depth = 0 ∧ (loopAt c2poly.loops 1).depth = 1 ∧
    c2poly.Parent 1 = (-1, true) := by
  decide

def c5loop : Loop :=
  { vertices := [1, 2, 3], depth := 0, isFull := false, originInside := false
    rectBound := { latLo := 0, latHi := 0, lngLo := 0, lngHi := 0 } }

/-- C5 evidence: `polygonFromLoops` leaves `subregionBound` at the
empty-rectangle sentinel while `bound` is the first loop's rectangle
bound, so a point of `bound` (here the origin of the coordinate
abstraction) is not contained in `subregionBound`: the documented
expansion invariant fails for every constructed polygon with a
non-empty bound. -/
theorem subregionBound_misses_bound :
    ∃ p : Polygon, polygonFromLoops [c5loop] = some p ∧
      p.subregionBound = EmptyRect ∧
      p.bound.containsPoint 0 0 = true ∧
      p.subregionBound.containsPoint 0 0 = false := by
  refine ⟨_, rfl, rfl, by decide, by decide⟩

theorem cumFrom_length (acc : Nat) (ls : List Loop) :
    (cumFrom acc ls).length = ls.length := by
  induction ls generalizing acc with
  | nil => rfl
  | cons l ls ih => simp [cumFrom, ih]

theorem linResolve_cumFrom (ls : List Loop) : ∀ (acc e i : Nat), acc ≤ e →
    e - acc < totalEdges ls →
    linResolve ls (e - acc) i = some (cumResolve (cumFrom acc ls) e i) := by
  induction ls with
  | nil =>
      intro acc e i h1 h2
      simp [totalEdges] at h2
  | cons l ls ih =>
      intro acc e i h1 h2
      cases ls with
      | nil =>
          have hv : e - acc < l.vertices.length := by
            simp [totalEdges] at h2
            omega
          simp only [linResolve, cumFrom, cumResolve]
          rw [if_pos hv]
      | cons l2 ls2 =>
          simp only [linResolve, cumFrom, cumResolve]
          by_cases hlt : e < acc + l.vertices.length
          · rw [if_pos (by omega), if_pos hlt]
          · rw [if_neg (by omega), if_neg hlt]
            have h3 : acc + l.vertices.length ≤ e := by omega
            have h4 : e - (acc + l.vertices.length) < totalEdges (l2 :: ls2) := by
              simp only [totalEdges] at h2 ⊢
              omega
            have hrec := ih (acc + l.vertices.length) e (i + 1) h3 h4
            simp only [cumFrom] at hrec
            rw [Nat.sub_sub]
            exact hrec

/-- C1: for a loop sequence and any global edge index below the total
edge count, resolving through the populated cumulative-edges table
(indexed mode) and resolving by the linear loop scan (linear mode)
agree: `Edge` and `ChainPosition` return identical results on two
polygons over the same loops, one with the table populated exactly as
the constructor builds it and one without it. -/
theorem dual_mode_resolution (pLin pIdx : Polygon) (e : Nat)
    (hl : pLin.loops = pIdx.loops)
    (hp : pLin.cumulativeEdges = [])
    (hq : pIdx.cumulativeEdges = cumFrom 0 pIdx.loops)
    (he : e < totalEdges pIdx.loops) :
    pIdx.ChainPosition e = pLin.ChainPosition e ∧
    pIdx.Edge e = pLin.Edge e := by
  have hkey : linResolve pIdx.loops e 0
      = some (cumResolve (cumFrom 0 pIdx.loops) e 0) := by
    have h0 := linResolve_cumFrom pIdx.loops 0 e 0 (Nat.zero_le e)
      (by simpa using he)
    simpa using h0
  have hpos : 0 < pIdx.loops.length := by
    cases hls : pIdx.loops with
    | nil => rw [hls] at he; simp [totalEdges] at he
    | cons a b => simp
  constructor
  · rw [Polygon.ChainPosition, Polygon.ChainPosition, hp, hq, hl]
    rw [if_pos (by rw [cumFrom_length]; exact hpos), if_neg (by simp)]
    exact hkey.symm
  · rw [Polygon.Edge, Polygon.Edge, hp, hq, hl]
    rw [if_pos (by rw [cumFrom_length]; exact hpos), if_neg (by simp)]
    rw [hkey]

def c1loops : List Loop := [mkTestLoop [1, 2] 0, mkTestLoop [3, 4, 5] 1]

def c1pLin : Polygon :=
  { loops := c1loops
    hasHoles := true
    numVertices := 5
    numEdges := 5
    bound := EmptyRect
    subregionBound := EmptyRect
    cumulativeEdges := [] }

def c1pIdx : Polygon := { c1pLin with cumulativeEdges := cumFrom 0 c1loops }

theorem dual_mode_resolution_witness :
    c1pIdx.ChainPosition 3 = c1pLin.ChainPosition 3 ∧
    c1pIdx.Edge 3 = c1pLin.Edge 3 :=
  dual_mode_resolution c1pLin c1pIdx 3 rfl rfl rfl (by decide)

theorem linResolve_isSome (ls : List Loop) : ∀ (e i : Nat),
    e < totalEdges ls → (linResolve ls e i).isSome = true := by
  induction ls with
  | nil =>
      intro e i h
      simp [totalEdges] at h
  | cons l ls ih =>
      intro e i h
      simp only [linResolve]
      split
      · rfl
      · apply ih
        simp only [totalEdges] at h
        omega

theorem Edge_eq_chainPosition_map (p : Polygon) (e : Nat) :
    p.Edge e = (p.ChainPosition e).map (fun ij => p.ChainEdge ij.1 ij.2) := rfl

/-- C3: for every polygon whose edge total is consistent with its
loops and every valid global edge index e, with (i, j) the pair given
by `ChainPosition e`, the vertex pair of `Edge e` is exactly the
vertex pair of `ChainEdge i j`. -/
theorem edge_chainEdge_roundtrip (p : Polygon) (e : Nat)
    (hnum : p.numEdges = totalEdges p.loops)
    (he : e < p.NumEdges) :
    ∃ i j, p.ChainPosition e = some (i, j) ∧
      p.Edge e = some (p.ChainEdge i j) := by
  have he2 : e < totalEdges p.loops := by
    rw [Polygon.NumEdges, hnum] at he
    exact he
  have hsome : (p.ChainPosition e).isSome = true := by
    rw [Polygon.ChainPosition]
    by_cases hpos : 0 < p.cumulativeEdges.length
    · rw [if_pos hpos]; rfl
    · rw [if_neg hpos]
      exact linResolve_isSome p.loops e 0 he2
  obtain ⟨⟨i, j⟩, hij⟩ := Option.isSome_iff_exists.mp hsome
  refine ⟨i, j, hij, ?_⟩
  rw [Edge_eq_chainPosition_map, hij]
  rfl

def c3poly : Polygon :=
  { loops := [mkTestLoop [7, 8, 9] 0]
    hasHoles := false
    numVertices := 3
    numEdges := 3
    bound := EmptyRect
    subregionBound := EmptyRect
    cumulativeEdges := [] }

theorem edge_chainEdge_roundtrip_witness :
    ∃ i j, c3poly.ChainPosition 2 = some (i, j) ∧
      c3poly.Edge 2 = some (c3poly.ChainEdge i j) :=
  edge_chainEdge_roundtrip c3poly 2 rfl (by decide)

theorem lastDescScan_spec (ls : List Loop) (d : Int) :
    ∀ (n k : Nat), ls.length - k ≤ n → k ≤ ls.length →
      k ≤ lastDescScan ls d k ∧ lastDescScan ls d k ≤ ls.length ∧
      (∀ j, k ≤ j → j < lastDescScan ls d k → d < (loopAt ls j).depth) ∧
      (lastDescScan ls d k < ls.length →
        (loopAt ls (lastDescScan ls d k)).depth ≤ d) := by
  intro n
  induction n with
  | zero =>
      intro k hn hk
      have hkeq : k = ls.length := by omega
      rw [lastDescScan, dif_neg (by omega)]
      refine ⟨le_refl _, hk, ?_, ?_⟩
      · intro j hj1 hj2
        omega
      · intro hlt
        omega
  | succ n ih =>
      intro k hn hk
      rw [lastDescScan]
      by_cases hcond : k < ls.length ∧ d < (loopAt ls k).depth
      · rw [dif_pos hcond]
        have hrec := ih (k + 1) (by omega) (by omega)
        refine ⟨Nat.le_trans (Nat.le_succ k) hrec.1, hrec.2.1, ?_, hrec.2.2.2⟩
        intro j hj1 hj2
        rcases Nat.eq_or_lt_of_le hj1 with hj | hj
        · rw [← hj]
          exact hcond.2
        · exact hrec.2.2.1 j hj hj2
      · rw [dif_neg hcond]
        refine ⟨le_refl _, hk, ?_, ?_⟩
        · intro j hj1 hj2
          omega
        · intro hlt
          by_contra hgt
          exact hcond ⟨hlt, lt_of_not_le hgt⟩

/-- C4: for negative k, `LastDescendant` returns the last loop index
(loop count minus one); for a valid loop index k it returns m - 1,
where m is the first index after k whose depth is at most depth(k), or
the last loop index when every later loop is strictly deeper. -/
theorem lastDescendant_spec (p : Polygon) (k : Int) :
    (k < 0 → p.LastDescendant k = (p.loops.length : Int) - 1) ∧
    (0 ≤ k → k < (p.loops.length : Int) →
      ∃ m : Nat, p.LastDescendant k = (m : Int) - 1 ∧ k < (m : Int) ∧
        m ≤ p.loops.length ∧
        (∀ j : Nat, k < (j : Int) → j < m →
          (loopAt p.loops k.toNat).depth < (loopAt p.loops j).depth) ∧
        (m < p.loops.length →
          (loopAt p.loops m).depth ≤ (loopAt p.loops k.toNat).depth)) := by
  constructor
  · intro hk
    rw [Polygon.LastDescendant, if_pos hk]
  · intro hk0 hklen
    have hkn : k.toNat + 1 ≤ p.loops.length := by omega
    rw [Polygon.LastDescendant, if_neg (by omega)]
    have hs := lastDescScan_spec p.loops ((loopAt p.loops k.toNat).depth)
      (p.loops.length - (k.toNat + 1)) (k.toNat + 1) (le_refl _) hkn
    refine ⟨lastDescScan p.loops ((loopAt p.loops k.toNat).depth) (k.toNat + 1),
      rfl, ?_, hs.2.1, ?_, hs.2.2.2⟩
    · have h1 := hs.1
      omega
    · intro j hj1 hj2
      have hj3 : k.toNat + 1 ≤ j := by omega
      exact hs.2.2.1 j hj3 hj2

def c4poly : Polygon :=
  { loops := [mkTestLoop [1, 2, 3] 0, mkTestLoop [4, 5, 6] 1,
              mkTestLoop [7, 8, 9] 1]
    hasHoles := true
    numVertices := 9
    numEdges := 9
    bound := EmptyRect
    subregionBound := EmptyRect
    cumulativeEdges := [] }

theorem lastDescendant_spec_witness :
    ∃ m : Nat, c4poly.LastDescendant 0 = (m : Int) - 1 ∧ (0 : Int) < (m : Int) ∧
      m ≤ c4poly.loops.length ∧
      (∀ j : Nat, (0 : Int) < (j : Int) → j < m →
        (loopAt c4poly.loops (0 : Int).toNat).depth < (loopAt c4poly.loops j).depth) ∧
      (m < c4poly.loops.length →
        (loopAt c4poly.loops m).depth ≤ (loopAt c4poly.loops (0 : Int).toNat).depth) :=
  (lastDescendant_spec c4poly 0).2 (by decide) (by decide)
